import Mathlib

/-!
Verification development for the wM-Bus (EN 13757-4) protocol engine.

Shallow embedding of the Rust sources:
  src/modet/threeoutofsix.rs  (three-of-six line codec)
  src/stack/phl/mod.rs        (physical layer, mode detection, CRC helper)
  src/stack/phl/ffa.rs        (frame format A)
  src/stack/phl/ffb.rs        (frame format B)
  src/stack/dll.rs            (data-link layer)
  src/stack/apl.rs            (application layer)
  src/stack/mod.rs            (stack composer)
  src/address.rs              (wM-Bus address codec)
  src/ctrl/controller.rs      (receive controller)

Bytes are modelled as `Nat` values (< 256 where the Rust type is `u8`),
bit streams as `List Bool` in MSB-first order (bitvec `Msb0`), and fallible
Rust functions as `Except`.  Rust panics (assert failures, unwraps on data
paths) are modelled by explicit `panic` constructors of the result types
where a claim depends on them.
-/

/-- Number of one bits in the binary representation of a byte (Rust
`count_ones`; every use in get-layout and mode detection is on a masked
`u8`, hence eight bit positions suffice). -/
def countOnes (n : Nat) : Nat :=
  n % 2 + n / 2 % 2 + n / 4 % 2 + n / 8 % 2 + n / 16 % 2 + n / 32 % 2 + n / 64 % 2 + n / 128 % 2

/-- Big-endian interpretation of two bytes (Rust `u16::from_be_bytes`). -/
def beBytesToNat (hi lo : Nat) : Nat := hi * 256 + lo

/-- One output bit of a bitwise XOR: the bit of weight `i` (a power of two)
of `a ^^^ b`, written with kernel-reducible arithmetic. -/
def xorBit (a b i : Nat) : Nat := (a / i % 2 + b / i % 2) % 2 * i

/-- Bitwise XOR of two 16-bit values, bit-blasted into arithmetic so that
concrete CRC computations evaluate inside the kernel. -/
def xor16 (a b : Nat) : Nat :=
  xorBit a b 1 + xorBit a b 2 + xorBit a b 4 + xorBit a b 8
    + xorBit a b 16 + xorBit a b 32 + xorBit a b 64 + xorBit a b 128
    + xorBit a b 256 + xorBit a b 512 + xorBit a b 1024 + xorBit a b 2048
    + xorBit a b 4096 + xorBit a b 8192 + xorBit a b 16384 + xorBit a b 32768

/-- One iteration of the MSB-first CRC shift register for polynomial 0x3D65:
when the top bit is set (`c &&& 0x8000 ≠ 0`, i.e. `c / 0x8000 % 2 = 1` for
the 16-bit state) the shifted state (`(c <<< 1) &&& 0xFFFF`, i.e.
`c * 2 % 0x10000`) is XORed with the polynomial. -/
def crcShift (c : Nat) : Nat :=
  if c / 0x8000 % 2 = 1 then xor16 (c * 2 % 0x10000) 0x3D65
  else c * 2 % 0x10000

/-- Absorb one input byte into the CRC state: XOR the byte into the high
half (`c ^^^ (b <<< 8)`) and run eight shift iterations.
CRC-16/EN-13757: polynomial 0x3D65, no reflection (`crc` crate `CRC_16_EN_13757`). -/
def crcByte (c b : Nat) : Nat :=
  Nat.iterate crcShift 8 (xor16 c (b % 256 * 256))

/-- Digest loop of the CRC: fold `crcByte` over the data.  The redundant
comparison (its two branches are identical) keeps every intermediate state a
numeral during kernel evaluation of concrete frames. -/
def crc16go : Nat → List Nat → Nat
  | c, [] => c
  | c, b :: rest =>
    let c2 := crcByte c b
    if c2 < 0x10000 then crc16go c2 rest else crc16go c2 rest

/-- CRC-16/EN-13757 digest over a byte sequence: initial value 0x0000,
final XOR 0xFFFF (the `CRC` constant of src/stack/phl/mod.rs). -/
def crc16 (data : List Nat) : Nat :=
  xor16 (crc16go 0 data) 0xFFFF

/-- Big-endian byte pair of the CRC over `data` (Rust `u16::to_be_bytes` /
`put_u16` which is big-endian in the `bytes` crate). -/
def crc16be (data : List Nat) : List Nat :=
  [crc16 data / 256, crc16 data % 256]

/-- Embedding of `is_valid_crc` from src/stack/phl/mod.rs: the CRC over all
but the last two bytes of a block must equal the big-endian value stored in
the last two bytes.  The source indexes `block.len() - 2` unconditionally and
would panic on a block shorter than 2 bytes; that case is modelled as
`false` and is unreachable from the developments below. -/
def isValidCrc (block : List Nat) : Bool :=
  if block.length < 2 then false
  else
    crc16 (block.take (block.length - 2)) =
      beBytesToNat (block.getD (block.length - 2) 0) (block.getD (block.length - 1) 0)

-- Three-of-six codec (src/modet/threeoutofsix.rs)

/-- Table 10 of EN 13757-4: nibble to 6-bit symbol (`ENCODE_TABLE`). -/
def ENCODE_TABLE : List Nat := [22, 13, 14, 11, 28, 25, 26, 19, 44, 37, 38, 35, 52, 49, 50, 41]

/-- Inverse symbol table (`DECODE_TABLE`), -1 marking invalid symbols. -/
def DECODE_TABLE : List Int :=
  [-1, -1, -1, -1, -1, -1, -1, -1, -1, -1, -1,  3, -1,  1,  2, -1,
   -1, -1, -1,  7, -1, -1,  0, -1, -1,  5,  6, -1,  4, -1, -1, -1,
   -1, -1, -1, 11, -1,  9, 10, -1, -1, 15, -1, -1,  8, -1, -1, -1,
   -1, 13, 14, -1, 12, -1, -1, -1, -1, -1, -1, -1, -1, -1, -1, -1]

/-- Error type of the three-of-six codec (`threeoutofsix::Error`). -/
inductive ThreeOutOfSixError where
  | Capacity
  | InputLength
  | Symbol (index : Nat)
deriving DecidableEq, Repr

/-- MSB-first emission of the six bits of one symbol, as written by the six
`buffer.set` calls in `ThreeOutOfSix::encode`. -/
def symbolBits (symbol : Nat) : List Bool :=
  [symbol &&& 0x20 ≠ 0, symbol &&& 0x10 ≠ 0, symbol &&& 0x08 ≠ 0,
   symbol &&& 0x04 ≠ 0, symbol &&& 0x02 ≠ 0, symbol &&& 0x01 ≠ 0]

/-- Embedding of `ThreeOutOfSix::encode`: high nibble then low nibble of each
byte, every nibble mapped through `ENCODE_TABLE`.  The bit buffer is modelled
as unbounded, so the `Capacity` check of the source is always satisfied. -/
def ThreeOutOfSix.encode (source : List Nat) : List Bool :=
  source.flatMap fun byte =>
    symbolBits (ENCODE_TABLE.getD (byte / 16) 0) ++ symbolBits (ENCODE_TABLE.getD (byte % 16) 0)

/-- MSB-first load of a bit chunk (`BitField::load_be`). -/
def loadBe (bits : List Bool) : Nat :=
  bits.foldl (fun acc b => 2 * acc + (if b then 1 else 0)) 0

/-- Fuel-driven worker for `chunksBy` (structural recursion on the fuel so
that the kernel can evaluate concrete chunkings; the fuel is always at least
the list length). -/
def chunksByF (m : Nat) : Nat → List α → List (List α)
  | _, [] => []
  | 0, _ :: _ => []
  | fuel + 1, x :: xs => (x :: xs.take m) :: chunksByF m fuel (xs.drop m)

/-- Maximal prefix chunks of size `m + 1`, the last chunk possibly shorter
(Rust `slice::chunks(m + 1)`). -/
def chunksBy (m : Nat) (l : List α) : List (List α) :=
  chunksByF m l.length l

/-- Decode loop of `ThreeOutOfSix::decode`: per-symbol table lookup with the
running symbol index and the high-nibble carry. -/
def ThreeOutOfSix.decodeCore : List (List Bool) → Nat → Option Nat →
    Except ThreeOutOfSixError (List Nat)
  | [], _, _ => .ok []
  | symbol :: rest, index, carry =>
    let value := DECODE_TABLE.getD (loadBe symbol) (-1)
    if value = -1 then .error (.Symbol index)
    else
      match carry with
      | some previous =>
        (ThreeOutOfSix.decodeCore rest (index + 1) none).map
          fun tail => ((previous <<< 4) ||| value.toNat) :: tail
      | none => ThreeOutOfSix.decodeCore rest (index + 1) (some value.toNat)

/-- Embedding of `ThreeOutOfSix::decode`: the input bit length must be a
multiple of 6 with an even symbol count (`chunks_exact(6)` remainder empty and
`symbols.len() & 1 == 0`), then symbols are decoded pairwise into bytes. -/
def ThreeOutOfSix.decode (input : List Bool) : Except ThreeOutOfSixError (List Nat) :=
  if input.length % 6 ≠ 0 ∨ (input.length / 6) % 2 ≠ 0 then .error .InputLength
  else ThreeOutOfSix.decodeCore (chunksBy 5 input) 0 none

-- Physical layer (src/stack/phl/mod.rs, ffa.rs, ffb.rs)

/-- Error type of the physical layer (`phl::Error`).  The FFA iteration in
src/stack/phl/ffa.rs spells the CRC variant `CrcBlock`; the `phl::Error` of
src/stack/phl/mod.rs spells it `Crc`.  One constructor models both. -/
inductive PhlError where
  | Incomplete
  | Syncword
  | ThreeOutOfSix (e : ThreeOutOfSixError)
  | InvalidLength
  | Crc (blockIndex : Nat)
deriving DecidableEq, Repr

/-- MSB-first bit view of a byte sequence (bitvec `view_bits::<Msb0>`). -/
def bytesToBits (bytes : List Nat) : List Bool :=
  bytes.flatMap fun b =>
    [b &&& 0x80 ≠ 0, b &&& 0x40 ≠ 0, b &&& 0x20 ≠ 0, b &&& 0x10 ≠ 0,
     b &&& 0x08 ≠ 0, b &&& 0x04 ≠ 0, b &&& 0x02 ≠ 0, b &&& 0x01 ≠ 0]

/-- Embedding of `get_frame_length_from_data_length` from src/stack/phl/ffa.rs:
first block of 10 data bytes plus 2 CRC, full middle blocks of 16 data bytes
plus 2 CRC, and a last block for the remainder.  Data lengths below 11
(missing CI field) are `InvalidLength`. -/
def getFrameLengthFromDataLength (dataLength : Nat) : Except PhlError Nat :=
  if dataLength < 11 then .error .InvalidLength
  else
    let otherDataLength := dataLength - 10
    let fullBlockCount := otherDataLength / 16
    let lastBlockDataLength := otherDataLength - fullBlockCount * 16
    let lastBlockFrameLength := if lastBlockDataLength > 0 then lastBlockDataLength + 2 else 0
    .ok (10 + 2 + fullBlockCount * (16 + 2) + lastBlockFrameLength)

/-- Embedding of `FFA::get_frame_length`: the L field carries the data length
minus one. -/
def FFA.getFrameLength (buffer : List Nat) : Except PhlError Nat :=
  match buffer with
  | [] => .error .Incomplete
  | b :: _ => getFrameLengthFromDataLength (1 + b)

/-- CRC verification loop over the trailing FFA blocks (the `for` loop of
`FFA::read` in src/stack/phl/ffa.rs): chunks of at most 16 data bytes plus 2
CRC bytes, concatenating the data portions. -/
def FFA.readBlocks : List (List Nat) → Nat → Except PhlError (List Nat)
  | [], _ => .ok []
  | block :: rest, index =>
    if isValidCrc block then
      (FFA.readBlocks rest (index + 1)).map fun tail => block.take (block.length - 2) ++ tail
    else .error (.Crc index)

/-- Embedding of `FFA::read` from src/stack/phl/ffa.rs (the frame-format-A CRC
strip; the `FrameFormat` trait of src/stack/phl/mod.rs names this operation
`trim_crc`): split off the 12-byte first block, validate it, then chunk the
whole remainder of the buffer into 18-byte blocks and validate each.  The
heapless capacity of the accumulator (256) is modelled as unbounded; its
`unwrap` cannot fail for the frame sizes reachable below. -/
def FFA.read (buffer : List Nat) : Except PhlError (List Nat) := do
  let frameLength ← FFA.getFrameLength buffer
  if buffer.length < frameLength then .error .Incomplete
  else
    let firstBlock := buffer.take 12
    let otherBlocks := buffer.drop 12
    if isValidCrc firstBlock then
      (FFA.readBlocks (chunksBy 17 otherBlocks) 1).map fun tail => firstBlock.take (firstBlock.length - 2) ++ tail
    else .error (.Crc 0)

/-- Embedding of `FFB::get_frame_length` from src/stack/phl/ffb.rs: the L
field carries the frame length minus one, minimum frame length 13. -/
def FFB.getFrameLength (buffer : List Nat) : Except PhlError Nat :=
  match buffer with
  | [] => .error .Incomplete
  | b :: _ => if 1 + b < 13 then .error .InvalidLength else .ok (1 + b)

/-- CRC verification loop of `FFB::trim_crc`: blocks of at most
`FIRST_BLOCK_DATA_LENGTH + SECOND_BLOCK_MAX_DATA_LENGTH + 2 = 128` bytes. -/
def FFB.trimBlocks : List (List Nat) → Nat → Except PhlError (List Nat)
  | [], _ => .ok []
  | block :: rest, index =>
    if isValidCrc block then
      (FFB.trimBlocks rest (index + 1)).map fun tail => block.take (block.length - 2) ++ tail
    else .error (.Crc index)

/-- Embedding of `FFB::trim_crc` from src/stack/phl/ffb.rs: derive the frame
length from the L field, require that many bytes, then chunk the whole buffer
into 128-byte blocks, validating and stripping the 2 CRC bytes of each. -/
def FFB.trimCrc (buffer : List Nat) : Except PhlError (List Nat) := do
  let frameLength ← FFB.getFrameLength buffer
  if buffer.length < frameLength then .error .Incomplete
  else FFB.trimBlocks (chunksBy 127 buffer) 0

/-- Frame mode (`stack::Mode`). -/
inductive Mode where
  | ModeCFFA
  | ModeCFFB
  | ModeTMTO
deriving DecidableEq, Repr

/-- Result of frame-length derivation (`phl::FrameMetadata`). -/
structure FrameMetadata where
  mode : Mode
  frameOffset : Nat
  frameLength : Nat
deriving DecidableEq, Repr

/-- Outcome of `FrameMetadata::read`, with an explicit constructor for a Rust
panic (a failing `assert_eq!`). -/
inductive MetaResult where
  | ok (m : FrameMetadata)
  | err (e : PhlError)
  | panic
deriving DecidableEq, Repr

/-- Outcome of `FrameMetadata::try_decode_first_modet_block`, mirroring
`Result<Option<FrameMetadata>, Error>` plus a Rust panic. -/
inductive TryDecodeResult where
  | okSome (m : FrameMetadata)
  | okNone
  | err (e : PhlError)
  | panic
deriving DecidableEq, Repr

/-- Embedding of `FrameMetadata::try_decode_first_modet_block`: require 18
bytes, three-of-six-decode the first `12 * 6 = 72` bits of the buffer, and on
success run `assert_eq!(12, decoded)` — modelled as `panic` when the decoded
byte count differs from 12 — before checking the CRC of the 12-byte block
buffer (decoded bytes padded with zeroes) and deriving the FFA length from
the raw buffer. -/
def tryDecodeFirstModetBlock (buffer : List Nat) : TryDecodeResult :=
  if buffer.length < (12 * 6) / 4 then .err .Incomplete
  else
    match ThreeOutOfSix.decode ((bytesToBits buffer).take (12 * 6)) with
    | .error _ => .okNone
    | .ok decoded =>
      if decoded.length ≠ 12 then .panic
      else
        let block := decoded ++ List.replicate (12 - decoded.length) 0
        if isValidCrc block then
          match FFA.getFrameLength buffer with
          | .error e => .err e
          | .ok frameLength => .okSome ⟨Mode.ModeTMTO, 0, frameLength⟩
        else .okNone

/-- Embedding of `FrameMetadata::decode_modec`: after the 0x54 syncword byte,
0xCD selects frame format A and 0x3D frame format B, anything else is a
`Syncword` error; the frame starts at offset 2. -/
def decodeModec (buffer : List Nat) : MetaResult :=
  if buffer.length < 2 then .err .Incomplete
  else
    match buffer.getD 1 0 with
    | 0xCD =>
      match FFA.getFrameLength (buffer.drop 2) with
      | .error e => .err e
      | .ok frameLength => .ok ⟨Mode.ModeCFFA, 2, frameLength⟩
    | 0x3D =>
      match FFB.getFrameLength (buffer.drop 2) with
      | .error e => .err e
      | .ok frameLength => .ok ⟨Mode.ModeCFFB, 2, frameLength⟩
    | _ => .err .Syncword

/-- Embedding of `FrameMetadata::decode_modet`: three-of-six-decode the first
12 bits into the L field (the source asserts exactly one decoded byte,
modelled as `panic`), then derive the FFA frame length from it. -/
def decodeModet (buffer : List Nat) : MetaResult :=
  if buffer.length < 3 then .err .Incomplete
  else
    match ThreeOutOfSix.decode ((bytesToBits buffer).take 12) with
    | .error e => .err (.ThreeOutOfSix e)
    | .ok decoded =>
      if decoded.length ≠ 1 then .panic
      else
        match FFA.getFrameLength (decoded ++ List.replicate (12 - decoded.length) 0) with
        | .error e => .err e
        | .ok frameLength => .ok ⟨Mode.ModeTMTO, 0, frameLength⟩

/-- Embedding of `FrameMetadata::read` from src/stack/phl/mod.rs: at least 3
bytes; a 0x54 first byte goes to the Mode C syncword path; a 0x44 second byte
triggers the ambiguous tie-break (both candidate three-of-six symbols must
have popcount 3, then the first Mode T block is tentatively decoded); anything
else is treated as a three-of-six encoded Mode T frame. -/
def FrameMetadata.read (buffer : List Nat) : MetaResult :=
  if buffer.length < 3 then .err .Incomplete
  else if buffer.getD 0 0 = 0x54 then decodeModec buffer
  else if buffer.getD 1 0 = 0x44 then
    let firstIs3oo6 := countOnes (buffer.getD 0 0 &&& 0xFC) = 3
    let secondIs3oo6 := countOnes ((buffer.getD 0 0 &&& 0x03) ||| (buffer.getD 1 0 &&& 0xF0)) = 3
    let ffb : MetaResult :=
      match FFB.getFrameLength buffer with
      | .error e => .err e
      | .ok frameLength => .ok ⟨Mode.ModeCFFB, 0, frameLength⟩
    if firstIs3oo6 ∧ secondIs3oo6 then
      match tryDecodeFirstModetBlock buffer with
      | .panic => .panic
      | .err e => .err e
      | .okSome m => .ok m
      | .okNone => ffb
    else ffb
  else decodeModet buffer

-- Address codec (src/address.rs)

/-- Manufacturer code constants from src/lib.rs (`ManufacturerCode`). -/
def HYD : Nat := 0x2324

/-- Diehl manufacturer code (`ManufacturerCode::DME`). -/
def DME : Nat := 0x11A5

/-- Kamstrup manufacturer code (`ManufacturerCode::KAM`). -/
def KAM : Nat := 0x2C2D

/-- Address parse error (`WMBusAddressError`). -/
inductive WMBusAddressError where
  | SerialNumberBcd
deriving DecidableEq, Repr

/-- Address field layout selector (`FieldLayout`). -/
inductive FieldLayout where
  | Default
  | Diehl
deriving DecidableEq, Repr

/-- Embedding of `WMBusAddress`: the serial number is kept as the four
big-endian packed-BCD bytes stored by `BcdNumber<4>` (nobcd keeps the bytes
it validated; equality of `BcdNumber` values is byte equality). -/
structure WMBusAddress where
  manufacturerCode : Nat
  serialNumber : List Nat
  version : Nat
  deviceType : Nat
deriving DecidableEq, Repr

/-- Decimal value of a big-endian packed-BCD byte sequence
(`BcdNumber::value`). -/
def bcdValue (bytesBe : List Nat) : Nat :=
  bytesBe.foldl (fun acc b => acc * 100 + (b / 16) * 10 + b % 16) 0

/-- Embedding of `parse_bcd_le`: reverse the four little-endian bytes to
big-endian and validate every nibble (`BcdNumber::from_bcd_bytes` fails when
any nibble exceeds 9), returning the validated big-endian bytes. -/
def parseBcdLe (bytesLe : List Nat) : Except Unit (List Nat) :=
  let bytesBe := bytesLe.reverse
  if bytesBe.all (fun b => b / 16 ≤ 9 && b % 16 ≤ 9) then .ok bytesBe else .error ()

/-- Embedding of `get_layout` from src/address.rs: the Diehl layout is
selected for manufacturer HYD via the (device type, version) fingerprints of
bytes 3 and 2 — with the Sharky 775 serial-range test for device 0x04/0x0C at
version 0x20 — and for manufacturer DME at device 0x07, version 0x78. -/
def getLayout (v : List Nat) : FieldLayout :=
  let manufacturerCode := v.getD 0 0 + 256 * v.getD 1 0
  if manufacturerCode = HYD then
    let version := v.getD 2 0
    let deviceType := v.getD 3 0
    if (deviceType = 0x04 ∨ deviceType = 0x0C) ∧ version = 0x20 then
      match parseBcdLe ((v.drop 4).take 4) with
      | .ok serialBytes =>
        let serialNumber := bcdValue serialBytes
        if (44000000 ≤ serialNumber ∧ serialNumber < 48350000)
            ∨ (51200000 ≤ serialNumber ∧ serialNumber < 51273000) then .Diehl
        else .Default
      | .error _ => .Default
    else if deviceType = 0x04
        ∧ (version = 0x2A ∨ version = 0x2B ∨ version = 0x2E ∨ version = 0x2F) then .Diehl
    else if deviceType = 0x06 ∧ version = 0x8B then .Diehl
    else if deviceType = 0x07 ∧ (version = 0x85 ∨ version = 0x86 ∨ version = 0x8B) then .Diehl
    else if deviceType = 0x0C ∧ (version = 0x2E ∨ version = 0x2F ∨ version = 0x53) then .Diehl
    else if deviceType = 0x16 ∧ version = 0x25 then .Diehl
    else .Default
  else if manufacturerCode = DME then
    let version := v.getD 2 0
    let deviceType := v.getD 3 0
    if deviceType = 0x07 ∧ version = 0x78 then .Diehl
    else .Default
  else .Default

/-- Embedding of `WMBusAddress::from_bytes`: dispatch on `get_layout`; the
default layout reads the serial from bytes 2..6 with version byte 6 and
device type byte 7, the Diehl layout reads the serial from bytes 4..8 with
version byte 2 and device type byte 3. -/
def WMBusAddress.fromBytes (v : List Nat) : Except WMBusAddressError WMBusAddress :=
  match getLayout v with
  | .Default =>
    match parseBcdLe ((v.drop 2).take 4) with
    | .error _ => .error .SerialNumberBcd
    | .ok serialBytes =>
      .ok ⟨v.getD 0 0 + 256 * v.getD 1 0, serialBytes, v.getD 6 0, v.getD 7 0⟩
  | .Diehl =>
    match parseBcdLe ((v.drop 4).take 4) with
    | .error _ => .error .SerialNumberBcd
    | .ok serialBytes =>
      .ok ⟨v.getD 0 0 + 256 * v.getD 1 0, serialBytes, v.getD 2 0, v.getD 3 0⟩

/-- Embedding of `WMBusAddress::get_bytes`: always the default EN 13757
layout — little-endian manufacturer, the BCD serial bytes reversed to
little-endian, then version and device type. -/
def WMBusAddress.getBytes (a : WMBusAddress) : List Nat :=
  [a.manufacturerCode % 256, a.manufacturerCode / 256]
    ++ a.serialNumber.reverse ++ [a.version, a.deviceType]

-- Stack layers (src/stack/mod.rs, dll.rs, apl.rs)

/-- Data-link layer error (`dll::Error`). -/
inductive DllError where
  | Incomplete
  | BcdConversion
deriving DecidableEq, Repr

/-- Stack-level read error (`stack::ReadError`).  The `Ell` variant is not
needed by the developments below (the write-capable stack is the
`without_ell` composition, `Ell::write` being `todo!()` in src/stack/ell.rs). -/
inductive ReadError where
  | Incomplete
  | Capacity
  | Phl (e : PhlError)
  | Dll (e : DllError)
deriving DecidableEq, Repr

/-- Conversion `From<phl::Error> for ReadError`: `Incomplete` maps to the
stack-level `Incomplete`, everything else is wrapped. -/
def phlToReadError (e : PhlError) : ReadError :=
  match e with
  | .Incomplete => .Incomplete
  | e => .Phl e

/-- Data-link layer fields (`DllFields`). -/
structure DllFields where
  control : Nat
  address : WMBusAddress
deriving DecidableEq, Repr

/-- Embedding of `Packet` for the `without_ell` stack with the default APL
capacity `DEFAULT_APL_MAX = FFA::APL_MAX = 246`.  The `rssi` and `phl` fields
play no role in any claim and are omitted. -/
structure Packet where
  mode : Mode
  frameLen : Option Nat
  dll : Option DllFields
  apl : List Nat
deriving DecidableEq, Repr

/-- Embedding of `Apl::read` (src/stack/apl.rs): verbatim copy of the
remaining bytes, `Capacity` error beyond the APL capacity of 246. -/
def Apl.read (packet : Packet) (buffer : List Nat) : Except ReadError Packet :=
  if buffer.length > 246 then .error .Capacity
  else .ok { packet with apl := buffer }

/-- Embedding of `Dll::read` (src/stack/dll.rs): 10-byte header, control from
byte 1, address from bytes 2..10 (BCD failures become `BcdConversion`), then
the application layer reads the remainder. -/
def Dll.read (packet : Packet) (buffer : List Nat) : Except ReadError Packet :=
  if buffer.length < 10 then .error .Incomplete
  else
    match WMBusAddress.fromBytes ((buffer.drop 2).take 8) with
    | .error _ => .error (.Dll .BcdConversion)
    | .ok address =>
      Apl.read { packet with dll := some ⟨buffer.getD 1 0, address⟩ } (buffer.drop 10)

/-- Embedding of `Phl::read` (src/stack/phl/mod.rs) for the `without_ell`
stack: Mode T three-of-six-decodes an even number of symbols and strips FFA
CRCs; Mode C FFA/FFB skip an optional 2-byte syncword and strip the CRCs of
the corresponding frame format. -/
def Phl.read (packet : Packet) (buffer : List Nat) : Except ReadError Packet :=
  match packet.mode with
  | .ModeTMTO =>
    -- the source clears the least bit (`symbols &= !1`) to make the count even
    let symbols := (buffer.length * 8) / 6 - ((buffer.length * 8) / 6) % 2
    let encoded := (bytesToBits buffer).take (6 * symbols)
    match ThreeOutOfSix.decode encoded with
    | .error e => .error (phlToReadError (.ThreeOutOfSix e))
    | .ok decoded =>
      match FFA.read decoded with
      | .error e => .error (phlToReadError e)
      | .ok payload => Dll.read packet payload
  | .ModeCFFA =>
    let offset := if buffer.take 2 = [0x54, 0xCD] then 2 else 0
    match FFA.read (buffer.drop offset) with
    | .error e => .error (phlToReadError e)
    | .ok payload => Dll.read packet payload
  | .ModeCFFB =>
    let offset := if buffer.take 2 = [0x54, 0x3D] then 2 else 0
    match FFB.trimCrc (buffer.drop offset) with
    | .error e => .error (phlToReadError e)
    | .ok payload => Dll.read packet payload

/-- Embedding of `Stack::read` (src/stack/mod.rs) for the `without_ell`
stack: build a fresh packet in the given mode, record the received frame
length, and run the physical layer. -/
def Stack.read (buffer : List Nat) (mode : Mode) : Except ReadError Packet :=
  Phl.read { mode := mode, frameLen := some buffer.length, dll := none, apl := [] } buffer

/-- Payload emitted below the physical layer by `Dll::write` then
`Apl::write`: the control byte, the 8 address bytes of the canonical default
layout, and the verbatim APL bytes.  `Dll::write` unwraps `packet.dll`;
a missing DLL is modelled as `none` (programmer-error panic in the source). -/
def dllWriteBytes (packet : Packet) : Option (List Nat) :=
  packet.dll.map fun fields => fields.control :: fields.address.getBytes ++ packet.apl

/-- Embedding of `Phl::write` (src/stack/phl/mod.rs): reserve the L byte,
emit the DLL and APL bytes, then finalize as frame format B.  With `len` the
content length including the L byte: when `len ≤ FIRST_BLOCK_DATA_LENGTH +
SECOND_BLOCK_MAX_DATA_LENGTH = 126` the L field is `len + 2 - 1` and one CRC
over all `len` bytes is appended; otherwise the L field is `len + 4 - 1`, the
overflow block is shifted right by two bytes, the first-block CRC is computed
over the first 126 bytes and stored at offset 126, and the CRC of the
remaining bytes is appended.  The final writer contents are expressed
directly with `take`/`drop`; the `% 256` models the `as u8` cast of the L
field. -/
def Phl.write (packet : Packet) : Option (List Nat) :=
  (dllWriteBytes packet).map fun payload =>
    let len := 1 + payload.length
    if len ≤ 126 then
      let data := (len + 2 - 1) % 256 :: payload
      data ++ crc16be data
    else
      let data := (len + 4 - 1) % 256 :: payload
      data.take 126 ++ crc16be (data.take 126) ++ data.drop 126 ++ crc16be (data.drop 126)

/-- Embedding of `Stack::write` (src/stack/mod.rs): delegate to the physical
layer (which always emits frame format B). -/
def Stack.write (packet : Packet) : Option (List Nat) :=
  Phl.write packet

/-- Decidable equality for `Except`, used to evaluate concrete runs of the
embedded fallible functions. -/
instance {ε α : Type} [DecidableEq ε] [DecidableEq α] : DecidableEq (Except ε α) := fun x y =>
  match x, y with
  | .ok a, .ok b => if h : a = b then .isTrue (by rw [h]) else .isFalse (by simp [h])
  | .error a, .error b => if h : a = b then .isTrue (by rw [h]) else .isFalse (by simp [h])
  | .ok _, .error _ => .isFalse (by simp)
  | .error _, .ok _ => .isFalse (by simp)

-- Receive controller (src/ctrl/controller.rs)

/-- Transceiver operations invoked by the controller, in program order
(the trait of src/ctrl/traits.rs). -/
inductive TrxOp where
  | receive
  | read
  | accept (frameLength : Nat)
  | getRssi
  | idle
  | listen
deriving DecidableEq, Repr

/-- Outcome of one `transceiver.read` call in the receive loop: a byte chunk
or a driver error. -/
inductive ReadOutcome where
  | bytes (chunk : List Nat)
  | fail
deriving DecidableEq, Repr

/-- Classification of `phl::derive_frame_length` errors as matched by the
controller: the feed-me-more-bytes error (`ReadError::NotEnoughBytes` in the
stack iteration used by the controller; `Incomplete` in the current one) against
every other error (malformed L field). -/
inductive DeriveError where
  | notEnoughBytes
  | invalid
deriving DecidableEq, Repr

/-- How one frame session of `Controller::receive_stream` ended: a frame was
yielded, the receiver was restarted after a read error, the frame was
abandoned after a malformed length, or the modelled read script ran out. -/
inductive SessionEnd where
  | yielded
  | restarted
  | abandoned
  | starved
deriving DecidableEq, Repr

/-- Embedding of the inner loop of `Controller::receive_stream`
(src/ctrl/controller.rs, lines 105..147): bytes are appended to the frame
buffer; while the length is unknown each chunk triggers frame-length
derivation — on success the length is accepted and the RSSI captured, on the
feed-me-more-bytes error the loop continues, on any other error the loop
breaks with no transceiver call; a frame is yielded once `received ≥ length`;
a read error idles and re-listens the transceiver before breaking.  The
frame-length derivation of the stack iteration used by the controller is a parameter
`dfl`; the function returns the transceiver operations performed, how the
session ended, and the unconsumed read script. -/
def sessionSteps (dfl : List Nat → Except DeriveError (Nat × Nat)) :
    List ReadOutcome → List Nat → Option Nat →
    List TrxOp × SessionEnd × List ReadOutcome
  | [], _, _ => ([], .starved, [])
  | .fail :: rest, _, _ => ([.read, .idle, .listen], .restarted, rest)
  | .bytes chunk :: rest, received, none =>
    let received := received ++ chunk
    match dfl received with
    | .error .notEnoughBytes =>
      let (ops, e, rest) := sessionSteps dfl rest received none
      (.read :: ops, e, rest)
    | .error .invalid => ([.read], .abandoned, rest)
    | .ok (_channel, length) =>
      if received.length ≥ length then ([.read, .accept length, .getRssi], .yielded, rest)
      else
        let (ops, e, rest) := sessionSteps dfl rest received (some length)
        (.read :: .accept length :: .getRssi :: ops, e, rest)
  | .bytes chunk :: rest, received, some length =>
    let received := received ++ chunk
    if received.length ≥ length then ([.read], .yielded, rest)
    else
      let (ops, e, rest) := sessionSteps dfl rest received (some length)
      (.read :: ops, e, rest)

/-- Embedding of the outer loop of `Controller::receive_stream`: every
iteration waits for frame detection (`transceiver.receive`) and then runs one
frame session; after a yielded, restarted or abandoned session the loop waits
for the next frame.  The loop is driven by fuel (the stream is infinite). -/
def streamTrace (dfl : List Nat → Except DeriveError (Nat × Nat)) :
    Nat → List ReadOutcome → List TrxOp
  | 0, _ => []
  | fuel + 1, script =>
    let (ops, sessionEnd, rest) := sessionSteps dfl script [] none
    match sessionEnd with
    | .starved => [.receive] ++ ops
    | _ => [.receive] ++ ops ++ streamTrace dfl fuel rest

-- Specification-side definitions (written from the wording of the claims,
-- for comparison with the source embeddings above)

/-- Validity of one six-bit symbol per the claim wording for the decode
contract: the symbol is in the code table (its `DECODE_TABLE` entry is
not -1). -/
def symbolValid (symbol : List Bool) : Bool :=
  DECODE_TABLE.getD (loadBe symbol) (-1) ≠ -1

/-- Index (counting from `start`) of the first symbol not in the code table,
as described by the decode-contract claim. -/
def firstInvalidSymbolFrom (start : Nat) : List (List Bool) → Option Nat
  | [] => none
  | symbol :: rest =>
    if symbolValid symbol then firstInvalidSymbolFrom (start + 1) rest else some start

/-- Pairwise packing of decoded symbols described by the decode-contract
claim: each consecutive symbol pair becomes the byte `(high <<< 4) ||| low`. -/
def packSymbols : List (List Bool) → List Nat
  | high :: low :: rest =>
    ((DECODE_TABLE.getD (loadBe high) (-1)).toNat <<< 4
        ||| (DECODE_TABLE.getD (loadBe low) (-1)).toNat) :: packSymbols rest
  | _ => []

/-- Sharky 775 serial test from the Diehl-selection claim: the serial at
bytes 4..8 must parse as BCD and lie in [44000000, 48350000) or
[51200000, 51273000). -/
def sharkySerialOk (v : List Nat) : Bool :=
  match parseBcdLe ((v.drop 4).take 4) with
  | .ok serialBytes =>
    decide ((44000000 ≤ bcdValue serialBytes ∧ bcdValue serialBytes < 48350000)
      ∨ (51200000 ≤ bcdValue serialBytes ∧ bcdValue serialBytes < 51273000))
  | .error _ => false

/-- Diehl fingerprint table of the claim (§4.6 of the specification): the
little-endian manufacturer code is HYD or DME and the (device type, version)
pair read from bytes 3 and 2 matches the table, with the Sharky 775 serial
range rule for HYD devices 0x04/0x0C at version 0x20. -/
def usesDiehlLayout (v : List Nat) : Bool :=
  let manufacturerCode := v.getD 0 0 + 256 * v.getD 1 0
  let version := v.getD 2 0
  let deviceType := v.getD 3 0
  (manufacturerCode == HYD
    && (((deviceType == 0x04 || deviceType == 0x0C) && version == 0x20 && sharkySerialOk v)
      || (deviceType == 0x04
          && (version == 0x2A || version == 0x2B || version == 0x2E || version == 0x2F))
      || (deviceType == 0x06 && version == 0x8B)
      || (deviceType == 0x07 && (version == 0x85 || version == 0x86 || version == 0x8B))
      || (deviceType == 0x0C && (version == 0x2E || version == 0x2F || version == 0x53))
      || (deviceType == 0x16 && version == 0x25)))
  || (manufacturerCode == DME && deviceType == 0x07 && version == 0x78)

-- Concrete fixtures used by the evaluative theorems

/-- Kamstrup repeater address of the stack tests
(`WMBusAddress::new(KAM, 12345678, 0x01, Repeater)`). -/
def kamAddr : WMBusAddress := ⟨KAM, [0x12, 0x34, 0x56, 0x78], 0x01, 0x32⟩

/-- Packet whose one-block FFB encoding starts with the bytes 0x54 0x3D: the
L field is `10 + 73 + 1 = 0x54` and the control byte is 0x3D. -/
def syncCollisionPacket : Packet :=
  ⟨.ModeCFFB, none, some ⟨0x3D, kamAddr⟩, (List.range 73).map (· + 1)⟩

/-- The frame written for `syncCollisionPacket`. -/
def syncCollisionFrame : List Nat := (Stack.write syncCollisionPacket).getD []

/-- The 117-byte APL of the `can_write_modecffb_three_blocks` stack test. -/
def twoBlockApl : List Nat := [0xa0, 0x00] ++ (List.range 115).map (· + 1)

/-- The two-block FFB packet of the `can_write_modecffb_three_blocks` test. -/
def twoBlockPacket : Packet := ⟨.ModeCFFB, none, some ⟨0x44, kamAddr⟩, twoBlockApl⟩

/-- The 131-byte frame written for `twoBlockPacket`. -/
def twoBlockFrame : List Nat := (Stack.write twoBlockPacket).getD []

/-- The 22-byte CRC-valid FFB frame of the `can_write_modecffb_two_blocks`
stack test. -/
def ffbFixture : List Nat :=
  [0x15, 0x44, 0x2d, 0x2c, 0x78, 0x56, 0x34, 0x12, 0x01, 0x32,
   0xa0, 0x00, 0x01, 0x02, 0x03, 0x04, 0x05, 0x06, 0x07, 0x08, 0xaf, 0x95]

/-- The 20-byte CRC-valid FFA frame obtained by three-of-six-decoding the
`can_read_modetmto` stack-test input. -/
def ffaFixture : List Nat :=
  [0x0F, 0x44, 0x2d, 0x2c, 0x78, 0x56, 0x34, 0x12, 0x01, 0x32, 0x6f, 0xcf,
   0xa0, 0x00, 0x01, 0x02, 0x03, 0x04, 0x76, 0x78]

/-- An 18-byte buffer for the ambiguous-0x44 tie-break whose first 72 bits
are twelve valid three-of-six symbols: byte 0 is 0x5B (not the 0x54
syncword), byte 1 is 0x44, and both candidate symbols have popcount 3. -/
def ambiguousInput : List Nat :=
  [0x5B, 0x44, 0xD6, 0x59, 0x65, 0x96, 0x59, 0x65, 0x96, 0, 0, 0, 0, 0, 0, 0, 0, 0]

/-- Frame-length derivation that always reports a malformed L field, driving
the controller counterexample. -/
def dflInvalid : List Nat → Except DeriveError (Nat × Nat) := fun _ => .error .invalid

-- Helper lemmas

theorem chunksByF_nil (m f : Nat) : chunksByF m f ([] : List α) = [] := by
  cases f <;> rfl

theorem chunksByF_cons_succ (m f : Nat) (x : α) (xs : List α) :
    chunksByF m (f + 1) (x :: xs) = (x :: xs.take m) :: chunksByF m f (xs.drop m) := rfl

theorem chunksByF_fuel (m : Nat) :
    ∀ (f1 f2 : Nat) (l : List α), l.length ≤ f1 → l.length ≤ f2 →
      chunksByF m f1 l = chunksByF m f2 l := by
  intro f1
  induction f1 with
  | zero =>
    intro f2 l h1 _
    have : l = [] := List.eq_nil_of_length_eq_zero (Nat.le_zero.mp h1)
    subst this
    rw [chunksByF_nil, chunksByF_nil]
  | succ f ih =>
    intro f2 l h1 h2
    cases l with
    | nil => rw [chunksByF_nil, chunksByF_nil]
    | cons x xs =>
      cases f2 with
      | zero => simp at h2
      | succ g =>
        rw [chunksByF_cons_succ, chunksByF_cons_succ]
        congr 1
        apply ih
        · simp only [List.length_drop]
          simp only [List.length_cons] at h1
          omega
        · simp only [List.length_drop]
          simp only [List.length_cons] at h2
          omega

theorem chunksBy_single (m : Nat) (l : List α) (h0 : l ≠ []) (h : l.length ≤ m + 1) :
    chunksBy m l = [l] := by
  cases l with
  | nil => exact absurd rfl h0
  | cons x xs =>
    rw [chunksBy, List.length_cons, chunksByF_cons_succ]
    simp only [List.length_cons] at h
    rw [List.take_of_length_le (by omega), List.drop_eq_nil_of_le (by omega), chunksByF_nil]

theorem chunksBy_append (m : Nat) (l1 l2 : List α) (h : l1.length = m + 1) :
    chunksBy m (l1 ++ l2) = l1 :: chunksBy m l2 := by
  cases l1 with
  | nil => simp at h
  | cons x xs =>
    simp only [List.length_cons] at h
    have hxs : xs.length = m := by omega
    rw [chunksBy, List.cons_append, List.length_cons, List.length_append, chunksByF_cons_succ]
    rw [List.take_left' hxs, List.drop_left' hxs]
    rw [chunksBy, chunksByF_fuel m (xs.length + l2.length) l2.length l2 (by omega) (by omega)]

theorem crc16be_length (d : List Nat) : (crc16be d).length = 2 := rfl

theorem isValidCrc_append (d : List Nat) : isValidCrc (d ++ crc16be d) = true := by
  have hlen : (d ++ crc16be d).length = d.length + 2 := by
    rw [List.length_append, crc16be_length]
  rw [isValidCrc, hlen, if_neg (by omega), Nat.add_sub_cancel]
  rw [List.take_left' rfl]
  rw [List.getD_append_right _ _ _ _ (Nat.le_refl _)]
  rw [List.getD_append_right _ _ _ _ (by omega)]
  have h1 : d.length + 2 - 1 - d.length = 1 := by omega
  rw [Nat.sub_self, h1]
  simp only [crc16be, List.getD_cons_zero, List.getD_cons_succ]
  simp only [beBytesToNat, decide_eq_true_eq]
  omega

set_option maxRecDepth 4000

-- Claim theorems

/-- C3 (code bug evidence): on the 18-byte buffer `ambiguousInput` — second
byte 0x44, first byte 0x5B (not a syncword), both candidate three-of-six
symbols of popcount 3 — the first 72 bits decode to the SIX bytes
`[0x0C, 0x70, 0, 0, 0, 0]`, not twelve, so `assert_eq!(12, decoded)` inside
`try_decode_first_modet_block` fails and `FrameMetadata::read` panics instead
of performing the CRC tie-break the claim describes. -/
theorem tiebreak_72bit_decode_panics :
    countOnes (0x5B &&& 0xFC) = 3
      ∧ countOnes ((0x5B &&& 0x03) ||| (0x44 &&& 0xF0)) = 3
      ∧ ThreeOutOfSix.decode ((bytesToBits ambiguousInput).take (12 * 6)) =
          .ok [0x0C, 0x70, 0, 0, 0, 0]
      ∧ FrameMetadata.read ambiguousInput = .panic := by
  refine ⟨by decide, by decide, by decide, by decide⟩

/-- C9: the default-layout encoding of the HYD address with serial 12341625,
version 0x30, device type 0x04 re-parses under the Diehl layout (its serial
bytes 0x25, 0x16 land at positions 2 and 3 and match the HYD device 0x16 /
version 0x25 fingerprint), so decode-of-encode succeeds but returns a
different serial number, version, and device type. -/
theorem address_encode_decode_not_identity :
    (WMBusAddress.getBytes ⟨HYD, [0x12, 0x34, 0x16, 0x25], 0x30, 0x04⟩ =
        [0x24, 0x23, 0x25, 0x16, 0x34, 0x12, 0x30, 0x04])
      ∧ [0x12, 0x34, 0x16, 0x25].all (fun b => b / 16 ≤ 9 && b % 16 ≤ 9) = true
      ∧ WMBusAddress.fromBytes
            (WMBusAddress.getBytes ⟨HYD, [0x12, 0x34, 0x16, 0x25], 0x30, 0x04⟩) =
          .ok ⟨HYD, [0x04, 0x30, 0x12, 0x34], 0x25, 0x16⟩
      ∧ bcdValue [0x04, 0x30, 0x12, 0x34] ≠ bcdValue [0x12, 0x34, 0x16, 0x25]
      ∧ (0x25 : Nat) ≠ 0x30 ∧ (0x16 : Nat) ≠ 0x04 := by
  refine ⟨by decide, by decide, by decide, by decide, by decide, by decide⟩

/-- C10: both CRC strippers chunk the whole input buffer rather than stopping
at the derived frame length, so a single trailing byte after a CRC-valid
frame turns a successful parse into a CRC block error: the 22-byte FFB test
frame parses, but with one extra byte `Stack::read` reports `Crc 0`; likewise
the 20-byte FFA frame strips cleanly, but with one extra byte `FFA::read`
reports a CRC error in block 1. -/
theorem trailing_byte_breaks_crc_stripping :
    Stack.read ffbFixture .ModeCFFB =
        .ok ⟨.ModeCFFB, some 22, some ⟨0x44, kamAddr⟩,
          [0xa0, 0x00, 0x01, 0x02, 0x03, 0x04, 0x05, 0x06, 0x07, 0x08]⟩
      ∧ Stack.read (ffbFixture ++ [0x00]) .ModeCFFB = .error (.Phl (.Crc 0))
      ∧ FFA.read ffaFixture =
          .ok [0x0F, 0x44, 0x2d, 0x2c, 0x78, 0x56, 0x34, 0x12, 0x01, 0x32,
               0xa0, 0x00, 0x01, 0x02, 0x03, 0x04]
      ∧ FFA.read (ffaFixture ++ [0x00]) = .error (.Crc 1) := by
  refine ⟨by decide, by decide, by decide, by decide⟩

/-- C8 (counterexample): a receive session in which frame-length derivation
fails with a malformed-length error (`dflInvalid` rejects every prefix) ends
without any `idle` or `listen` call — the controller goes straight back to
waiting for the next frame detection — refuting the claim that a malformed L
field triggers the same idle-then-listen restart as a read error. -/
theorem controller_no_restart_on_malformed_length :
    sessionSteps dflInvalid [.bytes [1, 2, 3]] [] none = ([.read], .abandoned, [])
      ∧ streamTrace dflInvalid 2 [.bytes [1, 2, 3], .bytes [4, 5, 6]] =
          [.receive, .read, .receive, .read]
      ∧ TrxOp.idle ∉ streamTrace dflInvalid 2 [.bytes [1, 2, 3], .bytes [4, 5, 6]]
      ∧ TrxOp.listen ∉ streamTrace dflInvalid 2 [.bytes [1, 2, 3], .bytes [4, 5, 6]] := by
  refine ⟨by decide, by decide, by decide, by decide⟩

/-- C8 (amended): whenever frame-length derivation fails with an error other
than the feed-me-more-bytes error, the controller abandons the frame with no
further transceiver call and waits for the next frame detection; the
idle-then-listen restart is performed only when a transceiver read fails. -/
theorem controller_malformed_length_abandons
    (dfl : List Nat → Except DeriveError (Nat × Nat)) (chunk : List Nat)
    (rest : List ReadOutcome) (fuel : Nat)
    (h : dfl chunk = .error .invalid) :
    sessionSteps dfl (.bytes chunk :: rest) [] none = ([.read], .abandoned, rest)
      ∧ streamTrace dfl (fuel + 1) (.bytes chunk :: rest) =
          .receive :: .read :: streamTrace dfl fuel rest
      ∧ (∀ (received : List Nat) (len : Option Nat),
          sessionSteps dfl (.fail :: rest) received len =
            ([.read, .idle, .listen], .restarted, rest)) := by
  have hs : sessionSteps dfl (.bytes chunk :: rest) [] none = ([.read], .abandoned, rest) := by
    simp [sessionSteps, h]
  refine ⟨hs, ?_, ?_⟩
  · simp [streamTrace, hs]
  · intro received len
    cases len <;> rfl

/-- Witness for the amended C8 theorem at the concrete always-failing
derivation and a concrete script. -/
theorem controller_malformed_length_abandons_witness :
    sessionSteps dflInvalid [.bytes [9, 9, 9]] [] none = ([.read], .abandoned, [])
      ∧ streamTrace dflInvalid 1 [.bytes [9, 9, 9]] =
          .receive :: .read :: streamTrace dflInvalid 0 []
      ∧ (∀ (received : List Nat) (len : Option Nat),
          sessionSteps dflInvalid [.fail] received len =
            ([.read, .idle, .listen], .restarted, [])) :=
  controller_malformed_length_abandons dflInvalid [9, 9, 9] [] 0 (by decide)

/-- C5: for every data length in [11, 256] the FFA frame-length derivation
succeeds with a result that is at most `FFA::FRAME_MAX = 290` and is monotone
non-decreasing in the data length; every data length below 11 yields
`InvalidLength`. -/
theorem ffa_length_bound_and_monotone :
    (∀ d e : Nat, 11 ≤ d → d ≤ e → e ≤ 256 →
      ∃ m n, getFrameLengthFromDataLength d = .ok m
        ∧ getFrameLengthFromDataLength e = .ok n ∧ m ≤ n ∧ n ≤ 290)
      ∧ (∀ d : Nat, d < 11 → getFrameLengthFromDataLength d = .error .InvalidLength) := by
  constructor
  · intro d e hd hde he
    simp only [getFrameLengthFromDataLength,
      if_neg (show ¬ d < 11 by omega), if_neg (show ¬ e < 11 by omega)]
    refine ⟨_, _, rfl, rfl, ?_, ?_⟩
    · dsimp only
      split_ifs <;> omega
    · dsimp only
      split_ifs <;> omega
  · intro d hd
    simp only [getFrameLengthFromDataLength, if_pos (show d < 11 by omega)]

/-- Witness for the C5 theorem at the interval endpoints and below the
minimum. -/
theorem ffa_length_bound_and_monotone_witness :
    (∃ m n, getFrameLengthFromDataLength 11 = .ok m
      ∧ getFrameLengthFromDataLength 256 = .ok n ∧ m ≤ n ∧ n ≤ 290)
      ∧ getFrameLengthFromDataLength 10 = .error .InvalidLength :=
  ⟨ffa_length_bound_and_monotone.1 11 256 (by decide) (by decide) (by decide),
   ffa_length_bound_and_monotone.2 10 (by decide)⟩

/-- C1 (counterexample): the packet with control byte 0x3D and a 73-byte APL
satisfies every premise of the round-trip claim (Mode C FFB, DLL fields
present, default-layout KAM address, APL fitting the frame), yet its written
frame begins with the bytes 0x54 0x3D — the L field is 0x54 — so `Stack::read`
strips them as a syncword and fails with a CRC error instead of returning the
packet. -/
theorem roundtrip_fails_on_syncword_collision :
    syncCollisionPacket.mode = .ModeCFFB
      ∧ (syncCollisionPacket.dll.map fun f => getLayout f.address.getBytes) = some .Default
      ∧ syncCollisionPacket.apl.length = 73
      ∧ Stack.write syncCollisionPacket = some syncCollisionFrame
      ∧ syncCollisionFrame.take 2 = [0x54, 0x3D]
      ∧ Stack.read syncCollisionFrame .ModeCFFB = .error (.Phl (.Crc 0)) := by
  refine ⟨by decide, by decide, by decide, by decide, by decide, by decide⟩

/-- C2 (counterexample): the 131-byte two-block frame written for the
117-byte-APL test packet does not carry a CRC over its first 125 data bytes
at offset 125; the first-block CRC is computed over the first 126 data bytes
and stored at offset 126. -/
theorem ffb_first_block_is_not_125_bytes :
    Stack.write twoBlockPacket = some twoBlockFrame
      ∧ twoBlockFrame.length = 131
      ∧ 1 + twoBlockFrame.getD 0 0 = twoBlockFrame.length
      ∧ (twoBlockFrame.drop 125).take 2 ≠ crc16be (twoBlockFrame.take 125)
      ∧ (twoBlockFrame.drop 126).take 2 = crc16be (twoBlockFrame.take 126) := by
  refine ⟨by decide, by decide, by decide, by decide, by decide⟩

theorem symbolBits_length (s : Nat) : (symbolBits s).length = 6 := rfl

theorem nibble_decode :
    ∀ n : Nat, n < 16 →
      DECODE_TABLE.getD (loadBe (symbolBits (ENCODE_TABLE.getD n 0))) (-1) = (n : Int) := by
  decide

theorem shl4_or_bounded : ∀ p : Nat, p < 16 → ∀ v : Nat, v < 16 → (p <<< 4) ||| v = p * 16 + v := by
  decide

theorem shl4_or_eq (p v : Nat) (hp : p < 16) (hv : v < 16) : (p <<< 4) ||| v = p * 16 + v :=
  shl4_or_bounded p hp v hv

theorem encode_cons (b : Nat) (bs : List Nat) :
    ThreeOutOfSix.encode (b :: bs) =
      symbolBits (ENCODE_TABLE.getD (b / 16) 0)
        ++ (symbolBits (ENCODE_TABLE.getD (b % 16) 0) ++ ThreeOutOfSix.encode bs) := by
  simp [ThreeOutOfSix.encode, List.flatMap_cons, List.append_assoc]

theorem encode_length (s : List Nat) : (ThreeOutOfSix.encode s).length = 12 * s.length := by
  induction s with
  | nil => rfl
  | cons b bs ih =>
    rw [encode_cons, List.length_append, List.length_append, symbolBits_length,
      symbolBits_length, ih, List.length_cons]
    omega

theorem decodeCore_encode (s : List Nat) (h : ∀ b ∈ s, b < 256) :
    ∀ idx : Nat,
      ThreeOutOfSix.decodeCore (chunksBy 5 (ThreeOutOfSix.encode s)) idx none = .ok s := by
  induction s with
  | nil => intro idx; rfl
  | cons b bs ih =>
    intro idx
    have hb : b < 256 := h b (List.mem_cons_self b bs)
    rw [encode_cons, chunksBy_append 5 _ _ (symbolBits_length _),
      chunksBy_append 5 _ _ (symbolBits_length _)]
    have h1 := nibble_decode (b / 16) (by omega)
    have h2 := nibble_decode (b % 16) (by omega)
    simp only [ThreeOutOfSix.decodeCore, h1, h2]
    rw [if_neg (by omega), if_neg (by omega)]
    rw [ih (fun x hx => h x (List.mem_cons_of_mem b hx)) (idx + 2)]
    simp only [Except.map]
    rw [Int.toNat_natCast, Int.toNat_natCast, shl4_or_eq _ _ (by omega) (by omega)]
    congr 2
    omega

/-- C4: for every byte sequence, `ThreeOutOfSix::encode` produces `12 * n`
bits and `ThreeOutOfSix::decode` applied to exactly those bits succeeds and
returns the original bytes (the bit buffers are modelled as unbounded, i.e.
sufficiently large). -/
theorem threeoutofsix_roundtrip (s : List Nat) (h : ∀ b ∈ s, b < 256) :
    (ThreeOutOfSix.encode s).length = 12 * s.length
      ∧ ThreeOutOfSix.decode (ThreeOutOfSix.encode s) = .ok s := by
  refine ⟨encode_length s, ?_⟩
  rw [ThreeOutOfSix.decode, if_neg ?_, decodeCore_encode s h 0]
  rw [encode_length]
  omega

/-- Witness for the C4 round-trip theorem at a concrete two-byte input. -/
theorem threeoutofsix_roundtrip_witness :
    (ThreeOutOfSix.encode [0x12, 0xAB]).length = 12 * 2
      ∧ ThreeOutOfSix.decode (ThreeOutOfSix.encode [0x12, 0xAB]) = .ok [0x12, 0xAB] :=
  threeoutofsix_roundtrip [0x12, 0xAB] (by decide)

theorem packSymbols_length :
    ∀ (syms : List (List Bool)), (packSymbols syms).length = syms.length / 2 := by
  suffices H : ∀ (n : Nat) (syms : List (List Bool)), syms.length ≤ n →
      (packSymbols syms).length = syms.length / 2 by
    intro syms
    exact H syms.length syms (Nat.le_refl _)
  intro n
  induction n with
  | zero =>
    intro syms hle
    have : syms = [] := List.eq_nil_of_length_eq_zero (Nat.le_zero.mp hle)
    subst this
    rfl
  | succ n ih =>
    intro syms hle
    match syms with
    | [] => rfl
    | [s] => simp [packSymbols]
    | hi :: lo :: rest =>
      simp only [packSymbols, List.length_cons]
      rw [ih rest (by simp only [List.length_cons] at hle; omega)]
      omega

theorem chunksByF_length6 :
    ∀ (fuel : Nat) (l : List Bool), l.length ≤ fuel →
      (chunksByF 5 fuel l).length = (l.length + 5) / 6 := by
  intro fuel
  induction fuel with
  | zero =>
    intro l hle
    have : l = [] := List.eq_nil_of_length_eq_zero (Nat.le_zero.mp hle)
    subst this
    rfl
  | succ f ih =>
    intro l hle
    cases l with
    | nil => rfl
    | cons x xs =>
      rw [chunksByF_cons_succ, List.length_cons]
      rw [ih (xs.drop 5) (by simp only [List.length_drop]; simp only [List.length_cons] at hle; omega)]
      simp only [List.length_drop, List.length_cons]
      omega

theorem decodeCore_spec :
    ∀ (syms : List (List Bool)) (idx : Nat), syms.length % 2 = 0 →
      ThreeOutOfSix.decodeCore syms idx none =
        match firstInvalidSymbolFrom idx syms with
        | some k => .error (.Symbol k)
        | none => .ok (packSymbols syms) := by
  suffices H : ∀ (n : Nat) (syms : List (List Bool)) (idx : Nat), syms.length ≤ n →
      syms.length % 2 = 0 →
      ThreeOutOfSix.decodeCore syms idx none =
        match firstInvalidSymbolFrom idx syms with
        | some k => .error (.Symbol k)
        | none => .ok (packSymbols syms) by
    intro syms idx he
    exact H syms.length syms idx (Nat.le_refl _) he
  intro n
  induction n with
  | zero =>
    intro syms idx hle _
    have : syms = [] := List.eq_nil_of_length_eq_zero (Nat.le_zero.mp hle)
    subst this
    rfl
  | succ n ih =>
    intro syms idx hle he
    match syms with
    | [] => rfl
    | [s] => simp at he
    | hi :: lo :: rest =>
      simp only [List.length_cons] at hle he
      by_cases h1 : DECODE_TABLE[loadBe hi]?.getD (-1) = -1
      · simp [ThreeOutOfSix.decodeCore, firstInvalidSymbolFrom, symbolValid, h1]
      · by_cases h2 : DECODE_TABLE[loadBe lo]?.getD (-1) = -1
        · simp [ThreeOutOfSix.decodeCore, firstInvalidSymbolFrom, symbolValid, h1, h2]
        · rw [show ThreeOutOfSix.decodeCore (hi :: lo :: rest) idx none =
              (ThreeOutOfSix.decodeCore rest (idx + 2) none).map
                (fun tail => (((DECODE_TABLE.getD (loadBe hi) (-1)).toNat <<< 4)
                    ||| (DECODE_TABLE.getD (loadBe lo) (-1)).toNat) :: tail) by
            simp only [ThreeOutOfSix.decodeCore, List.getD_eq_getElem?_getD]
            rw [if_neg h1, if_neg h2]]
          rw [ih rest (idx + 2) (by omega) (by omega)]
          rw [show firstInvalidSymbolFrom idx (hi :: lo :: rest) =
              firstInvalidSymbolFrom (idx + 2) rest by
            simp only [firstInvalidSymbolFrom, symbolValid, List.getD_eq_getElem?_getD,
              ne_eq, decide_not]
            rw [if_pos (by simpa using h1), if_pos (by simpa using h2)]]
          cases hfi : firstInvalidSymbolFrom (idx + 2) rest with
          | none => simp [packSymbols, Except.map]
          | some k => simp [Except.map]

/-- C7: `ThreeOutOfSix::decode` returns `InputLength` exactly when the bit
length is not a multiple of 6 or the symbol count is odd; otherwise it
returns `Symbol k` for the first symbol index `k` outside the code table, and
with all symbols valid it succeeds with the pairwise-packed bytes — `n / 2`
of them for `n` symbols. -/
theorem threeoutofsix_decode_contract (input : List Bool) :
    ThreeOutOfSix.decode input =
      (if input.length % 6 ≠ 0 ∨ (input.length / 6) % 2 ≠ 0 then .error .InputLength
       else
         match firstInvalidSymbolFrom 0 (chunksBy 5 input) with
         | some k => .error (.Symbol k)
         | none => .ok (packSymbols (chunksBy 5 input)))
      ∧ (packSymbols (chunksBy 5 input)).length = (chunksBy 5 input).length / 2
      ∧ (input.length % 6 = 0 → (chunksBy 5 input).length = input.length / 6) := by
  refine ⟨?_, packSymbols_length _, ?_⟩
  · rw [ThreeOutOfSix.decode]
    by_cases hbad : input.length % 6 ≠ 0 ∨ (input.length / 6) % 2 ≠ 0
    · rw [if_pos hbad, if_pos hbad]
    · rw [if_neg hbad, if_neg hbad]
      push_neg at hbad
      apply decodeCore_spec
      rw [chunksBy, chunksByF_length6 input.length input (Nat.le_refl _)]
      omega
  · intro h6
    rw [chunksBy, chunksByF_length6 input.length input (Nat.le_refl _)]
    omega

/-- Layout dispatch of `get_layout` agrees with the fingerprint table as the
claim states it. -/
theorem getLayout_diehl_iff (v : List Nat) :
    getLayout v = FieldLayout.Diehl ↔ usesDiehlLayout v = true := by
  rw [getLayout, usesDiehlLayout, sharkySerialOk]
  cases hp : parseBcdLe ((v.drop 4).take 4) with
  | ok sb =>
    split_ifs <;>
      simp_all [HYD, DME, Bool.or_eq_true, Bool.and_eq_true, beq_iff_eq, decide_eq_true_eq] <;>
      first
      | omega
      | (split_ifs <;> simp_all <;> omega)
  | error e =>
    split_ifs <;>
      simp_all [HYD, DME, Bool.or_eq_true, Bool.and_eq_true, beq_iff_eq, decide_eq_true_eq] <;>
      first
      | omega
      | (split_ifs <;> simp_all <;> omega)

/-- C6: `WMBusAddress::from_bytes` applies the Diehl layout — version from
byte 2, device type from byte 3, BCD serial from bytes 4..8 — exactly when
the little-endian manufacturer code is HYD or DME and the (device type,
version) pair read from bytes 3 and 2 matches the §4.6 fingerprint table
(including the Sharky 775 serial-range rule); every other input gets the
default layout — serial from bytes 2..6, version byte 6, device type
byte 7. -/
theorem diehl_layout_selection (v : List Nat) :
    WMBusAddress.fromBytes v =
      if usesDiehlLayout v then
        match parseBcdLe ((v.drop 4).take 4) with
        | .error _ => .error .SerialNumberBcd
        | .ok serialBytes =>
          .ok ⟨v.getD 0 0 + 256 * v.getD 1 0, serialBytes, v.getD 2 0, v.getD 3 0⟩
      else
        match parseBcdLe ((v.drop 2).take 4) with
        | .error _ => .error .SerialNumberBcd
        | .ok serialBytes =>
          .ok ⟨v.getD 0 0 + 256 * v.getD 1 0, serialBytes, v.getD 6 0, v.getD 7 0⟩ := by
  rw [WMBusAddress.fromBytes]
  cases hgl : getLayout v with
  | Diehl =>
    rw [if_pos ((getLayout_diehl_iff v).mp hgl)]
  | Default =>
    have hfalse : usesDiehlLayout v = false := by
      cases h : usesDiehlLayout v
      · rfl
      · rw [(getLayout_diehl_iff v).mpr h] at hgl
        exact absurd hgl (by simp)
    rw [if_neg (by simp [hfalse])]

theorem getBytes_cons (a : WMBusAddress) :
    a.getBytes = a.manufacturerCode % 256 :: a.manufacturerCode / 256 ::
      (a.serialNumber.reverse ++ [a.version, a.deviceType]) := by
  simp [WMBusAddress.getBytes]

theorem getBytes_length (a : WMBusAddress) (h : a.serialNumber.length = 4) :
    a.getBytes.length = 8 := by
  rw [getBytes_cons]
  simp [h]

theorem fromBytes_getBytes (a : WMBusAddress)
    (hsnLen : a.serialNumber.length = 4)
    (hsnBcd : ∀ b ∈ a.serialNumber, b / 16 ≤ 9 ∧ b % 16 ≤ 9)
    (hm : a.manufacturerCode < 65536)
    (hLayout : getLayout a.getBytes = .Default) :
    WMBusAddress.fromBytes a.getBytes = .ok a := by
  obtain ⟨mc, sn, vv, dd⟩ := a
  simp only at hsnLen hsnBcd hm
  rw [WMBusAddress.fromBytes, hLayout]
  have hrl : sn.reverse.length = 4 := by rw [List.length_reverse, hsnLen]
  have hdrop : (WMBusAddress.getBytes ⟨mc, sn, vv, dd⟩).drop 2 = sn.reverse ++ [vv, dd] := by
    rw [getBytes_cons]
    rfl
  have htake : ((WMBusAddress.getBytes ⟨mc, sn, vv, dd⟩).drop 2).take 4 = sn.reverse := by
    rw [hdrop, List.take_left' hrl]
  rw [htake]
  have hparse : parseBcdLe sn.reverse = .ok sn := by
    rw [parseBcdLe, List.reverse_reverse]
    rw [if_pos]
    rw [List.all_eq_true]
    intro b hb
    have := hsnBcd b hb
    simp only [Bool.and_eq_true, decide_eq_true_eq]
    omega
  rw [hparse]
  have h0 : (WMBusAddress.getBytes ⟨mc, sn, vv, dd⟩).getD 0 0 = mc % 256 := by
    rw [getBytes_cons]; rfl
  have h1 : (WMBusAddress.getBytes ⟨mc, sn, vv, dd⟩).getD 1 0 = mc / 256 := by
    rw [getBytes_cons]; rfl
  have h6 : (WMBusAddress.getBytes ⟨mc, sn, vv, dd⟩).getD 6 0 = vv := by
    rw [getBytes_cons]
    simp only [List.getD_cons_succ]
    rw [List.getD_append_right _ _ _ _ (by omega), hrl]
    rfl
  have h7 : (WMBusAddress.getBytes ⟨mc, sn, vv, dd⟩).getD 7 0 = dd := by
    rw [getBytes_cons]
    simp only [List.getD_cons_succ]
    rw [List.getD_append_right _ _ _ _ (by omega), hrl]
    rfl
  rw [h0, h1, h6, h7]
  have : mc % 256 + 256 * (mc / 256) = mc := by omega
  rw [this]

theorem dll_apl_read (pk : Packet) (lByte ctrl : Nat) (a : WMBusAddress) (apl : List Nat)
    (hsnLen : a.serialNumber.length = 4)
    (hsnBcd : ∀ b ∈ a.serialNumber, b / 16 ≤ 9 ∧ b % 16 ≤ 9)
    (hm : a.manufacturerCode < 65536)
    (hLayout : getLayout a.getBytes = .Default)
    (hapl : apl.length ≤ 246) :
    Dll.read pk (lByte :: ctrl :: (a.getBytes ++ apl)) =
      .ok { pk with dll := some ⟨ctrl, a⟩, apl := apl } := by
  have hgb : a.getBytes.length = 8 := getBytes_length a hsnLen
  rw [Dll.read]
  rw [if_neg (by simp [hgb])]
  have hdrop2 : (lByte :: ctrl :: (a.getBytes ++ apl)).drop 2 = a.getBytes ++ apl := rfl
  have htake8 : ((lByte :: ctrl :: (a.getBytes ++ apl)).drop 2).take 8 = a.getBytes := by
    rw [hdrop2, List.take_left' hgb]
  rw [htake8, fromBytes_getBytes a hsnLen hsnBcd hm hLayout]
  have hdrop10 : (lByte :: ctrl :: (a.getBytes ++ apl)).drop 10 = apl := by
    have : (lByte :: ctrl :: (a.getBytes ++ apl)).drop 10 = (a.getBytes ++ apl).drop 8 := rfl
    rw [this, List.drop_left' hgb]
  have hgd : (lByte :: ctrl :: (a.getBytes ++ apl)).getD 1 0 = ctrl := rfl
  rw [hgd, hdrop10]
  simp only [Apl.read]
  rw [if_neg (by omega)]

theorem trimBlocks_nil (i : Nat) : FFB.trimBlocks [] i = .ok [] := rfl

theorem trimBlocks_cons_valid (b : List Nat) (rest : List (List Nat)) (i : Nat)
    (h : isValidCrc b = true) :
    FFB.trimBlocks (b :: rest) i =
      (FFB.trimBlocks rest (i + 1)).map fun tail => b.take (b.length - 2) ++ tail := by
  rw [FFB.trimBlocks, if_pos h]

theorem trimCrc_one_block (lb : Nat) (rest : List Nat)
    (hlb : lb = rest.length + 2) (hmin : 10 ≤ rest.length) (hmax : rest.length + 3 ≤ 128) :
    FFB.trimCrc ((lb :: rest) ++ crc16be (lb :: rest)) = .ok (lb :: rest) := by
  have hblen : ((lb :: rest) ++ crc16be (lb :: rest)).length = rest.length + 3 := by
    rw [List.length_append, crc16be_length, List.length_cons]
  rw [FFB.trimCrc]
  rw [show (lb :: rest) ++ crc16be (lb :: rest) = lb :: (rest ++ crc16be (lb :: rest)) from rfl]
  rw [FFB.getFrameLength]
  rw [if_neg (by omega)]
  show (if (lb :: (rest ++ crc16be (lb :: rest))).length < 1 + lb then
      Except.error PhlError.Incomplete
    else FFB.trimBlocks (chunksBy 127 (lb :: (rest ++ crc16be (lb :: rest)))) 0) = .ok (lb :: rest)
  rw [show lb :: (rest ++ crc16be (lb :: rest)) = (lb :: rest) ++ crc16be (lb :: rest) from rfl]
  rw [if_neg (by rw [hblen]; omega)]
  rw [chunksBy_single 127 _ (by simp) (by rw [hblen]; omega)]
  rw [trimBlocks_cons_valid _ _ _ (isValidCrc_append _), trimBlocks_nil]
  simp only [Except.map]
  rw [hblen, show rest.length + 3 - 2 = rest.length + 1 from by omega]
  rw [List.take_left' (by rw [List.length_cons])]
  rw [List.append_nil]


theorem trimCrc_two_block (lb : Nat) (rest : List Nat)
    (hlb : lb = rest.length + 4) (hmin : 126 ≤ rest.length) (hmax : rest.length ≤ 251) :
    FFB.trimCrc ((lb :: rest).take 126 ++ crc16be ((lb :: rest).take 126)
        ++ (lb :: rest).drop 126 ++ crc16be ((lb :: rest).drop 126)) = .ok (lb :: rest) := by
  have hd1 : (lb :: rest).take 126 = lb :: rest.take 125 := rfl
  have hd1len : ((lb :: rest).take 126).length = 126 := by
    rw [List.length_take]
    simp only [List.length_cons]
    omega
  have hd2len : ((lb :: rest).drop 126).length = rest.length - 125 := by
    rw [List.length_drop]
    simp only [List.length_cons]
    omega
  have hAlen : ((lb :: rest).take 126 ++ crc16be ((lb :: rest).take 126)).length = 128 := by
    rw [List.length_append, crc16be_length, hd1len]
  have hBlen : ((lb :: rest).drop 126 ++ crc16be ((lb :: rest).drop 126)).length
      = rest.length - 123 := by
    rw [List.length_append, crc16be_length, hd2len]
    omega
  have hregroup : (lb :: rest).take 126 ++ crc16be ((lb :: rest).take 126)
        ++ (lb :: rest).drop 126 ++ crc16be ((lb :: rest).drop 126)
      = ((lb :: rest).take 126 ++ crc16be ((lb :: rest).take 126))
        ++ ((lb :: rest).drop 126 ++ crc16be ((lb :: rest).drop 126)) := by
    simp only [List.append_assoc]
  have hblen : ((lb :: rest).take 126 ++ crc16be ((lb :: rest).take 126)
        ++ (lb :: rest).drop 126 ++ crc16be ((lb :: rest).drop 126)).length
      = rest.length + 5 := by
    rw [hregroup, List.length_append, hAlen, hBlen]
    omega
  have hcons : (lb :: rest).take 126 ++ crc16be ((lb :: rest).take 126)
        ++ (lb :: rest).drop 126 ++ crc16be ((lb :: rest).drop 126)
      = lb :: (rest.take 125 ++ (crc16be ((lb :: rest).take 126)
        ++ ((lb :: rest).drop 126 ++ crc16be ((lb :: rest).drop 126)))) := by
    rw [hd1]
    simp only [List.cons_append, List.append_assoc]
  rw [FFB.trimCrc, hcons, FFB.getFrameLength]
  rw [if_neg (by omega)]
  rw [← hcons]
  show (if ((lb :: rest).take 126 ++ crc16be ((lb :: rest).take 126)
        ++ (lb :: rest).drop 126 ++ crc16be ((lb :: rest).drop 126)).length < 1 + lb then
      Except.error PhlError.Incomplete
    else FFB.trimBlocks (chunksBy 127 ((lb :: rest).take 126 ++ crc16be ((lb :: rest).take 126)
        ++ (lb :: rest).drop 126 ++ crc16be ((lb :: rest).drop 126))) 0) = .ok (lb :: rest)
  rw [if_neg (by rw [hblen]; omega)]
  rw [hregroup, chunksBy_append 127 _ _ hAlen]
  rw [chunksBy_single 127 _ (by simp [crc16be]) (by rw [hBlen]; omega)]
  rw [trimBlocks_cons_valid _ _ _ (isValidCrc_append _)]
  rw [trimBlocks_cons_valid _ _ _ (isValidCrc_append _), trimBlocks_nil]
  simp only [Except.map]
  rw [List.append_nil, hAlen, hBlen]
  rw [show (128 : Nat) - 2 = 126 from rfl]
  rw [show rest.length - 123 - 2 = rest.length - 125 from by omega]
  rw [List.take_left' hd1len, List.take_left' hd2len]
  rw [List.take_append_drop]

/-- C1 (amended): for every Mode C FFB packet with DLL fields present, a
default-layout address with a valid 4-byte BCD serial, and an APL payload
that fits the frame (1 to 242 bytes), `Stack::read` applied to the bytes of
`Stack::write` succeeds and preserves mode, DLL address (and control byte)
and APL payload — provided the emitted frame does not begin with the
syncword bytes 0x54 0x3D (i.e. not both APL length 73 and control byte
0x3D), the case the counterexample exhibits. -/
theorem stack_roundtrip_ffb
    (m : Nat) (sn : List Nat) (ver dt ctrl : Nat) (apl : List Nat)
    (hm : m < 65536)
    (hsnLen : sn.length = 4)
    (hsnBcd : ∀ b ∈ sn, b / 16 ≤ 9 ∧ b % 16 ≤ 9)
    (hLayout : getLayout (WMBusAddress.getBytes ⟨m, sn, ver, dt⟩) = .Default)
    (haplLo : 1 ≤ apl.length) (haplHi : apl.length ≤ 242)
    (hsync : ¬(apl.length = 73 ∧ ctrl = 0x3D)) :
    ∃ out, Stack.write ⟨.ModeCFFB, none, some ⟨ctrl, ⟨m, sn, ver, dt⟩⟩, apl⟩ = some out
      ∧ Stack.read out .ModeCFFB =
          .ok ⟨.ModeCFFB, some out.length, some ⟨ctrl, ⟨m, sn, ver, dt⟩⟩, apl⟩ := by
  have hgb : (WMBusAddress.getBytes ⟨m, sn, ver, dt⟩).length = 8 :=
    getBytes_length _ hsnLen
  have hply : ((ctrl :: WMBusAddress.getBytes ⟨m, sn, ver, dt⟩) ++ apl).length
      = 9 + apl.length := by
    rw [List.length_append, List.length_cons, hgb]
  simp only [Stack.write, Phl.write, dllWriteBytes, Option.map]
  simp only [hply]
  by_cases hone : apl.length ≤ 116
  · simp only [if_pos (show 1 + (9 + apl.length) ≤ 126 by omega)]
    have hL : (1 + (9 + apl.length) + 2 - 1) % 256 = 11 + apl.length := by omega
    simp only [hL]
    refine ⟨_, rfl, ?_⟩
    simp only [Stack.read, Phl.read]
    rw [if_neg ?hsyncw]
    case hsyncw =>
      intro h
      rw [show (((11 + apl.length) :: ((ctrl :: WMBusAddress.getBytes ⟨m, sn, ver, dt⟩) ++ apl))
            ++ crc16be ((11 + apl.length) ::
              ((ctrl :: WMBusAddress.getBytes ⟨m, sn, ver, dt⟩) ++ apl))).take 2
          = [11 + apl.length, ctrl] from rfl] at h
      simp only [List.cons.injEq, and_true] at h
      exact hsync ⟨by omega, h.2⟩
    rw [List.drop_zero]
    rw [trimCrc_one_block (11 + apl.length)
        ((ctrl :: WMBusAddress.getBytes ⟨m, sn, ver, dt⟩) ++ apl)
        (by rw [hply]; omega) (by rw [hply]; omega) (by rw [hply]; omega)]
    exact dll_apl_read _ _ _ _ _ hsnLen hsnBcd hm hLayout (by omega)
  · simp only [if_neg (show ¬ 1 + (9 + apl.length) ≤ 126 by omega)]
    have hL : (1 + (9 + apl.length) + 2 + 2 - 1) % 256 = 13 + apl.length := by omega
    simp only [hL]
    refine ⟨_, rfl, ?_⟩
    simp only [Stack.read, Phl.read]
    rw [if_neg ?hsyncw2]
    case hsyncw2 =>
      intro h
      rw [show (((13 + apl.length) :: ((ctrl :: WMBusAddress.getBytes ⟨m, sn, ver, dt⟩) ++ apl)).take 126
            ++ crc16be (((13 + apl.length) ::
                ((ctrl :: WMBusAddress.getBytes ⟨m, sn, ver, dt⟩) ++ apl)).take 126)
            ++ ((13 + apl.length) :: ((ctrl :: WMBusAddress.getBytes ⟨m, sn, ver, dt⟩) ++ apl)).drop 126
            ++ crc16be (((13 + apl.length) ::
                ((ctrl :: WMBusAddress.getBytes ⟨m, sn, ver, dt⟩) ++ apl)).drop 126)).take 2
          = [13 + apl.length, ctrl] from rfl] at h
      simp only [List.cons.injEq, and_true] at h
      omega
    rw [List.drop_zero]
    rw [trimCrc_two_block (13 + apl.length)
        ((ctrl :: WMBusAddress.getBytes ⟨m, sn, ver, dt⟩) ++ apl)
        (by rw [hply]; omega) (by rw [hply]; omega) (by rw [hply]; omega)]
    exact dll_apl_read _ _ _ _ _ hsnLen hsnBcd hm hLayout (by omega)

/-- Witness for the C1 round-trip theorem at the packet of the
`can_write_modecffb_two_blocks` stack test. -/
theorem stack_roundtrip_ffb_witness :
    ∃ out, Stack.write ⟨.ModeCFFB, none, some ⟨0x44, ⟨KAM, [0x12, 0x34, 0x56, 0x78], 0x01, 0x32⟩⟩,
        [0xa0, 0x00, 0x01, 0x02, 0x03, 0x04, 0x05, 0x06, 0x07, 0x08]⟩ = some out
      ∧ Stack.read out .ModeCFFB =
          .ok ⟨.ModeCFFB, some out.length, some ⟨0x44, ⟨KAM, [0x12, 0x34, 0x56, 0x78], 0x01, 0x32⟩⟩,
            [0xa0, 0x00, 0x01, 0x02, 0x03, 0x04, 0x05, 0x06, 0x07, 0x08]⟩ :=
  stack_roundtrip_ffb KAM [0x12, 0x34, 0x56, 0x78] 0x01 0x32 0x44
    [0xa0, 0x00, 0x01, 0x02, 0x03, 0x04, 0x05, 0x06, 0x07, 0x08]
    (by decide) (by decide) (by decide) (by decide) (by decide) (by decide) (by decide)

theorem oneBlockLayout (data : List Nat) (h2 : 1 ≤ data.length) (hle : data.length + 2 ≤ 128) :
    chunksBy 127 (data ++ crc16be data) = [data ++ crc16be data]
      ∧ data ++ crc16be data
        = (data ++ crc16be data).take ((data ++ crc16be data).length - 2)
          ++ crc16be ((data ++ crc16be data).take ((data ++ crc16be data).length - 2))
      ∧ (data ++ crc16be data).length = data.length + 2 := by
  have holen : (data ++ crc16be data).length = data.length + 2 := by
    rw [List.length_append, crc16be_length]
  have htake : (data ++ crc16be data).take ((data ++ crc16be data).length - 2) = data := by
    rw [holen, show data.length + 2 - 2 = data.length from by omega, List.take_left]
  refine ⟨?_, ?_, holen⟩
  · exact chunksBy_single 127 _ (by simp [crc16be]) (by rw [holen]; omega)
  · rw [htake]

theorem twoBlockLayout (data : List Nat) (hmin : 127 ≤ data.length) (hmax : data.length ≤ 252) :
    chunksBy 127 (data.take 126 ++ crc16be (data.take 126)
        ++ data.drop 126 ++ crc16be (data.drop 126))
      = [(data.take 126 ++ crc16be (data.take 126)
          ++ data.drop 126 ++ crc16be (data.drop 126)).take 128,
         (data.take 126 ++ crc16be (data.take 126)
          ++ data.drop 126 ++ crc16be (data.drop 126)).drop 128]
      ∧ (data.take 126 ++ crc16be (data.take 126)
          ++ data.drop 126 ++ crc16be (data.drop 126)).take 128
        = (data.take 126 ++ crc16be (data.take 126)
            ++ data.drop 126 ++ crc16be (data.drop 126)).take 126
          ++ crc16be ((data.take 126 ++ crc16be (data.take 126)
            ++ data.drop 126 ++ crc16be (data.drop 126)).take 126)
      ∧ (data.take 126 ++ crc16be (data.take 126)
          ++ data.drop 126 ++ crc16be (data.drop 126)).drop 128
        = ((data.take 126 ++ crc16be (data.take 126)
            ++ data.drop 126 ++ crc16be (data.drop 126)).drop 128).take
              ((data.take 126 ++ crc16be (data.take 126)
                ++ data.drop 126 ++ crc16be (data.drop 126)).length - 130)
          ++ crc16be (((data.take 126 ++ crc16be (data.take 126)
            ++ data.drop 126 ++ crc16be (data.drop 126)).drop 128).take
              ((data.take 126 ++ crc16be (data.take 126)
                ++ data.drop 126 ++ crc16be (data.drop 126)).length - 130))
      ∧ (data.take 126 ++ crc16be (data.take 126)
          ++ data.drop 126 ++ crc16be (data.drop 126)).length = data.length + 4 := by
  have hTlen : (data.take 126).length = 126 := by
    rw [List.length_take]
    omega
  have hDlen : (data.drop 126).length = data.length - 126 := by
    rw [List.length_drop]
  have hAlen : (data.take 126 ++ crc16be (data.take 126)).length = 128 := by
    rw [List.length_append, crc16be_length, hTlen]
  have hBlen : (data.drop 126 ++ crc16be (data.drop 126)).length = data.length - 124 := by
    rw [List.length_append, crc16be_length, hDlen]
    omega
  have hregroup : data.take 126 ++ crc16be (data.take 126)
        ++ data.drop 126 ++ crc16be (data.drop 126)
      = (data.take 126 ++ crc16be (data.take 126))
        ++ (data.drop 126 ++ crc16be (data.drop 126)) := by
    simp only [List.append_assoc]
  have holen : (data.take 126 ++ crc16be (data.take 126)
        ++ data.drop 126 ++ crc16be (data.drop 126)).length = data.length + 4 := by
    rw [hregroup, List.length_append, hAlen, hBlen]
    omega
  have htake128 : (data.take 126 ++ crc16be (data.take 126)
        ++ data.drop 126 ++ crc16be (data.drop 126)).take 128
      = data.take 126 ++ crc16be (data.take 126) := by
    rw [hregroup, List.take_left' hAlen]
  have hdrop128 : (data.take 126 ++ crc16be (data.take 126)
        ++ data.drop 126 ++ crc16be (data.drop 126)).drop 128
      = data.drop 126 ++ crc16be (data.drop 126) := by
    rw [hregroup, List.drop_left' hAlen]
  have htake126 : (data.take 126 ++ crc16be (data.take 126)
        ++ data.drop 126 ++ crc16be (data.drop 126)).take 126 = data.take 126 := by
    rw [hregroup, List.take_append_of_le_length (by rw [hAlen]; omega),
      List.take_append_of_le_length (by rw [hTlen]), List.take_take]
    rw [show min 126 126 = 126 from rfl]
  refine ⟨?_, ?_, ?_, holen⟩
  · rw [htake128, hdrop128, hregroup, chunksBy_append 127 _ _ hAlen,
      chunksBy_single 127 _ (by simp [crc16be]) (by rw [hBlen]; omega)]
  · rw [htake128, htake126]
  · rw [hdrop128, holen,
      show data.length + 4 - 130 = (data.drop 126).length from by rw [hDlen]; omega,
      List.take_left]

/-- C2 (amended): every frame written by the FFB transmit path carries
`L = frame length - 1`; a frame of at most 128 bytes is stripped as a single
block of `L - 1` data bytes plus 2 CRC bytes, and a longer frame is chunked
into a first block of exactly 126 data bytes plus 2 CRC bytes — the
first-block CRC computed over the first 126 data bytes and stored at offset
126 — followed by a second block holding the remaining data plus 2 CRC
bytes. -/
theorem ffb_block_layout
    (m : Nat) (sn : List Nat) (ver dt ctrl : Nat) (apl : List Nat)
    (hsnLen : sn.length = 4)
    (haplLo : 1 ≤ apl.length) (haplHi : apl.length ≤ 242) :
    ∃ out, Stack.write ⟨.ModeCFFB, none, some ⟨ctrl, ⟨m, sn, ver, dt⟩⟩, apl⟩ = some out
      ∧ 1 + out.getD 0 0 = out.length
      ∧ (out.length ≤ 128 →
          chunksBy 127 out = [out]
          ∧ out = out.take (out.length - 2) ++ crc16be (out.take (out.length - 2)))
      ∧ (128 < out.length →
          chunksBy 127 out = [out.take 128, out.drop 128]
          ∧ out.take 128 = out.take 126 ++ crc16be (out.take 126)
          ∧ out.drop 128 = (out.drop 128).take (out.length - 130)
              ++ crc16be ((out.drop 128).take (out.length - 130))) := by
  have hgb : (WMBusAddress.getBytes ⟨m, sn, ver, dt⟩).length = 8 :=
    getBytes_length _ hsnLen
  have hply : ((ctrl :: WMBusAddress.getBytes ⟨m, sn, ver, dt⟩) ++ apl).length
      = 9 + apl.length := by
    rw [List.length_append, List.length_cons, hgb]
  simp only [Stack.write, Phl.write, dllWriteBytes, Option.map]
  simp only [hply]
  by_cases hone : apl.length ≤ 116
  · simp only [if_pos (show 1 + (9 + apl.length) ≤ 126 by omega)]
    have hL : (1 + (9 + apl.length) + 2 - 1) % 256 = 11 + apl.length := by omega
    simp only [hL]
    have hdlen : ((11 + apl.length) ::
        ((ctrl :: WMBusAddress.getBytes ⟨m, sn, ver, dt⟩) ++ apl)).length
        = 10 + apl.length := by
      rw [List.length_cons, hply]
      omega
    have h1 := oneBlockLayout ((11 + apl.length) ::
        ((ctrl :: WMBusAddress.getBytes ⟨m, sn, ver, dt⟩) ++ apl))
      (by rw [hdlen]; omega) (by rw [hdlen]; omega)
    refine ⟨_, rfl, ?_, fun _ => ⟨h1.1, h1.2.1⟩, fun hgt => absurd hgt ?_⟩
    · rw [show (((11 + apl.length) ::
            ((ctrl :: WMBusAddress.getBytes ⟨m, sn, ver, dt⟩) ++ apl))
          ++ crc16be ((11 + apl.length) ::
            ((ctrl :: WMBusAddress.getBytes ⟨m, sn, ver, dt⟩) ++ apl))).getD 0 0
          = 11 + apl.length from rfl]
      rw [h1.2.2, hdlen]
      omega
    · rw [h1.2.2, hdlen]
      omega
  · simp only [if_neg (show ¬ 1 + (9 + apl.length) ≤ 126 by omega)]
    have hL : (1 + (9 + apl.length) + 2 + 2 - 1) % 256 = 13 + apl.length := by omega
    simp only [hL]
    have hdlen : ((13 + apl.length) ::
        ((ctrl :: WMBusAddress.getBytes ⟨m, sn, ver, dt⟩) ++ apl)).length
        = 10 + apl.length := by
      rw [List.length_cons, hply]
      omega
    have h2 := twoBlockLayout ((13 + apl.length) ::
        ((ctrl :: WMBusAddress.getBytes ⟨m, sn, ver, dt⟩) ++ apl))
      (by rw [hdlen]; omega) (by rw [hdlen]; omega)
    refine ⟨_, rfl, ?_, fun hle => absurd hle ?_, fun _ => ⟨h2.1, h2.2.1, h2.2.2.1⟩⟩
    · rw [show ((((13 + apl.length) ::
              ((ctrl :: WMBusAddress.getBytes ⟨m, sn, ver, dt⟩) ++ apl)).take 126)
            ++ crc16be (((13 + apl.length) ::
              ((ctrl :: WMBusAddress.getBytes ⟨m, sn, ver, dt⟩) ++ apl)).take 126)
            ++ (((13 + apl.length) ::
              ((ctrl :: WMBusAddress.getBytes ⟨m, sn, ver, dt⟩) ++ apl)).drop 126)
            ++ crc16be (((13 + apl.length) ::
              ((ctrl :: WMBusAddress.getBytes ⟨m, sn, ver, dt⟩) ++ apl)).drop 126)).getD 0 0
          = 13 + apl.length from rfl]
      rw [h2.2.2.2, hdlen]
      omega
    · rw [h2.2.2.2, hdlen]
      omega

/-- Witness for the C2 block-layout theorem at the two-block test packet. -/
theorem ffb_block_layout_witness :
    ∃ out, Stack.write ⟨.ModeCFFB, none,
        some ⟨0x44, ⟨KAM, [0x12, 0x34, 0x56, 0x78], 0x01, 0x32⟩⟩, twoBlockApl⟩ = some out
      ∧ 1 + out.getD 0 0 = out.length
      ∧ (out.length ≤ 128 →
          chunksBy 127 out = [out]
          ∧ out = out.take (out.length - 2) ++ crc16be (out.take (out.length - 2)))
      ∧ (128 < out.length →
          chunksBy 127 out = [out.take 128, out.drop 128]
          ∧ out.take 128 = out.take 126 ++ crc16be (out.take 126)
          ∧ out.drop 128 = (out.drop 128).take (out.length - 130)
              ++ crc16be ((out.drop 128).take (out.length - 130))) :=
  ffb_block_layout KAM [0x12, 0x34, 0x56, 0x78] 0x01 0x32 0x44 twoBlockApl
    (by decide) (by decide) (by decide)
